import Mathlib

/-!
Verification of the `nus-logger` core against its specification.

The Python sources are shallowly embedded as Lean functions:

* `src/nus_logger/utils.py` — `LineAssembler.feed` / `LineAssembler.flush_if_idle`
* `src/nus_logger/logger_controller.py` — `NUSLoggerController` (broadcast,
  tail buffer, subscribe, connect validation, disconnect, status)
* `src/nus_logger/ble_nus.py` — `NUSClient.scan` wait loop, name filtering,
  `run_until_disconnect` wait loop
* `src/nus_logger/nus_logger.py` — `run_logger` reconnection loop

Bytes are modelled as `Nat` (newline = 10, carriage return = 13), Python
`bytes`/`bytearray` values as `List Nat`, monotonic clock values and float
durations as `ℚ`.
-/

namespace NusLogger

/-! ## LineAssembler (utils.py lines 47-91) -/

/-- Embeds the CRLF tolerance step of `LineAssembler.feed`
(utils.py lines 76-77): `if line.endswith(b"\r"): line = line[:-1]` —
drop a single trailing carriage-return byte. -/
def stripCR (line : List Nat) : List Nat :=
  if line.getLast? = some 13 then line.dropLast else line

/-- Embeds the `while True` loop of `LineAssembler.feed`
(utils.py lines 70-80): repeatedly scan the buffer for the next newline
byte (`self._buf.find(b"\n")`); stop when none is present; otherwise emit
the prefix before the newline with one trailing carriage return stripped,
and continue on the bytes after the newline.  Returns the emitted lines
and the remaining (newline-free) buffer. -/
def feedLoop (buf : List Nat) : List (List Nat) × List Nat :=
  match h : buf.dropWhile (fun b => b ≠ 10) with
  | [] => ([], buf)
  | _ :: rest =>
    let line := stripCR (buf.takeWhile (fun b => b ≠ 10))
    let p := feedLoop rest
    (line :: p.1, p.2)
termination_by buf.length
decreasing_by
  have hle : (buf.dropWhile (fun b => b ≠ 10)).length ≤ buf.length :=
    (List.dropWhile_sublist (l := buf) (p := fun b => b ≠ 10)).length_le
  rw [h] at hle
  simp only [List.length_cons] at hle
  omega

/-- Helper for `splitNl`: prepend a non-newline byte to a split result.
If the tail produced no complete line, the byte joins the pending
remainder; otherwise it joins the first complete line. -/
def consHead (b : Nat) : List (List Nat) × List Nat → List (List Nat) × List Nat
  | ([], r) => ([], b :: r)
  | (l :: ls, r) => ((b :: l) :: ls, r)

/-- Structural reformulation of the newline split: peel bytes from the
front; a newline byte closes the line under construction.  Used as the
induction-friendly description of `feedLoop` (the two are proved equal in
`feedLoop_eq_splitNl`). -/
def splitNl : List Nat → List (List Nat) × List Nat
  | [] => ([], [])
  | b :: rest =>
    if b = 10 then ([] :: (splitNl rest).1, (splitNl rest).2)
    else consHead b (splitNl rest)

@[simp] theorem consHead_nil (b : Nat) (r : List Nat) :
    consHead b ([], r) = ([], b :: r) := rfl

@[simp] theorem consHead_cons (b : Nat) (l : List Nat) (ls : List (List Nat))
    (r : List Nat) : consHead b (l :: ls, r) = ((b :: l) :: ls, r) := rfl

theorem splitNl_no_nl (buf : List Nat) (h : 10 ∉ buf) : splitNl buf = ([], buf) := by
  induction buf with
  | nil => rfl
  | cons b rest ih =>
    have hb : b ≠ 10 := fun hb => h (hb ▸ List.mem_cons_self b rest)
    have hr : 10 ∉ rest := fun hr => h (List.mem_cons_of_mem b hr)
    simp only [splitNl, if_neg hb, ih hr, consHead_nil]

theorem splitNl_fst_nil (buf : List Nat) (h : (splitNl buf).1 = []) :
    (splitNl buf).2 = buf := by
  induction buf with
  | nil => rfl
  | cons b rest ih =>
    by_cases hb : b = 10
    · simp only [splitNl, if_pos hb] at h
      exact absurd h (by simp)
    · simp only [splitNl, if_neg hb] at h ⊢
      rcases hp : splitNl rest with ⟨_ | ⟨l, ls⟩, r⟩
      · have h2 : (splitNl rest).2 = rest := by
          apply ih; rw [hp]
        rw [hp] at h2; simp at h2
        simp [h2]
      · rw [hp] at h; simp at h

theorem splitNl_before_nl (w r : List Nat) (hw : 10 ∉ w) :
    splitNl (w ++ 10 :: r) = (w :: (splitNl r).1, (splitNl r).2) := by
  induction w with
  | nil => simp [splitNl]
  | cons b w ih =>
    have hb : b ≠ 10 := fun hb => hw (hb ▸ List.mem_cons_self b w)
    have hw2 : 10 ∉ w := fun h2 => hw (List.mem_cons_of_mem b h2)
    simp only [List.cons_append, splitNl, if_neg hb, List.append_eq, ih hw2,
      consHead_cons]

theorem feedLoop_eq_splitNl_bounded :
    ∀ (n : Nat) (buf : List Nat), buf.length ≤ n →
      feedLoop buf = ((splitNl buf).1.map stripCR, (splitNl buf).2) := by
  intro n
  induction n with
  | zero =>
    intro buf hlen
    have hb : buf = [] := List.length_eq_zero.mp (Nat.le_zero.mp hlen)
    subst hb
    rw [feedLoop]
    rfl
  | succ n ih =>
    intro buf hlen
    rcases hd : buf.dropWhile (fun b => b ≠ 10) with _ | ⟨c, rest⟩
    · have hno : 10 ∉ buf := by
        intro hm
        have := List.dropWhile_eq_nil_iff.mp hd 10 hm
        simp at this
      rw [feedLoop, hd, splitNl_no_nl buf hno]
      rfl
    · have hc : c = 10 := by
        have h0 := List.head?_dropWhile_not (fun b => b ≠ 10) buf
        rw [hd] at h0
        simpa using h0
      have hw : 10 ∉ buf.takeWhile (fun b => b ≠ 10) := by
        intro hm
        have := List.mem_takeWhile_imp hm
        simp at this
      have hbuf : buf = buf.takeWhile (fun b => b ≠ 10) ++ 10 :: rest := by
        conv_lhs => rw [← List.takeWhile_append_dropWhile (p := fun b => b ≠ 10) (l := buf)]
        rw [hd, hc]
      have hrest : rest.length ≤ n := by
        have h1 : (buf.dropWhile (fun b => b ≠ 10)).length ≤ buf.length :=
          (List.dropWhile_sublist (l := buf) (p := fun b => b ≠ 10)).length_le
        rw [hd] at h1
        simp only [List.length_cons] at h1
        omega
      rw [feedLoop, hd]
      conv_rhs => rw [hbuf]
      rw [splitNl_before_nl _ _ hw]
      simp only [List.map_cons]
      rw [ih rest hrest]

/-- `feedLoop` computes the newline split with one trailing carriage
return stripped from every emitted line. -/
theorem feedLoop_eq_splitNl (buf : List Nat) :
    feedLoop buf = ((splitNl buf).1.map stripCR, (splitNl buf).2) :=
  feedLoop_eq_splitNl_bounded buf.length buf le_rfl

/-- The newline split is compositional: splitting `u ++ v` yields the
complete lines of `u`, then the lines obtained by prepending the pending
remainder of `u` to `v`. -/
theorem splitNl_append (u v : List Nat) :
    splitNl (u ++ v) =
      ((splitNl u).1 ++ (splitNl ((splitNl u).2 ++ v)).1,
       (splitNl ((splitNl u).2 ++ v)).2) := by
  induction u with
  | nil => simp [splitNl]
  | cons b u ih =>
    have hcons : ∀ w, splitNl (b :: w) =
        if b = 10 then ([] :: (splitNl w).1, (splitNl w).2)
        else consHead b (splitNl w) := fun w => rfl
    by_cases hb : b = 10
    · rw [List.cons_append, hcons (u ++ v), hcons u, if_pos hb, if_pos hb, ih]
      simp
    · rw [List.cons_append, hcons (u ++ v), hcons u, if_neg hb, if_neg hb]
      rcases hu : (splitNl u).1 with _ | ⟨l, ls⟩
      · have h2 : (splitNl u).2 = u := splitNl_fst_nil u hu
        have hpair : splitNl u = ([], u) := Prod.ext hu h2
        have key : consHead b (splitNl (u ++ v)) = splitNl ((b :: u) ++ v) := by
          rw [List.cons_append, hcons (u ++ v), if_neg hb]
        rw [hpair, consHead_nil, key]
        simp only [List.nil_append]
      · have hpair : splitNl u = (l :: ls, (splitNl u).2) := Prod.ext hu rfl
        rw [hu] at ih
        simp only [List.cons_append] at ih
        rw [ih, hpair, consHead_cons, consHead_cons]
        simp

/-- Composition law for `feed`'s inner loop: feeding `u ++ v` produces the
lines of feeding `u` followed by the lines of feeding the left-over buffer
of `u` concatenated with `v`. -/
theorem feedLoop_append (u v : List Nat) :
    feedLoop (u ++ v) =
      ((feedLoop u).1 ++ (feedLoop ((feedLoop u).2 ++ v)).1,
       (feedLoop ((feedLoop u).2 ++ v)).2) := by
  rw [feedLoop_eq_splitNl (u ++ v), feedLoop_eq_splitNl u]
  rw [splitNl_append u v]
  rw [feedLoop_eq_splitNl ((splitNl u).2 ++ v)]
  simp [List.map_append]

/-- State of a `LineAssembler` (utils.py lines 54-61): the byte buffer
`self._buf` and the monotonic-clock stamp `self._last_activity`. -/
structure AssemblerState where
  buf : List Nat
  lastActivity : ℚ
deriving DecidableEq

/-- `LineAssembler.__init__` (utils.py lines 54-61): empty buffer,
last-activity stamp set to the current clock value. -/
def assemblerInit (now : ℚ) : AssemblerState := ⟨[], now⟩

/-- `LineAssembler.feed` (utils.py lines 63-80): append the chunk to the
buffer, stamp the activity clock, then run the newline-extraction loop.
Returns the completed lines and the updated state; `now` is the value
the running loop's clock returns during this call. -/
def feed (st : AssemblerState) (data : List Nat) (now : ℚ) :
    List (List Nat) × AssemblerState :=
  let p := feedLoop (st.buf ++ data)
  (p.1, ⟨p.2, now⟩)

/-- `LineAssembler.flush_if_idle` (utils.py lines 82-91): if the buffer is
non-empty and at least `idleSeconds` have passed since the last activity,
return the whole buffer as a final undelimited line and clear it
(the activity stamp is not touched); otherwise return nothing. -/
def flushIfIdle (st : AssemblerState) (idleSeconds : ℚ) (now : ℚ) :
    Option (List Nat) × AssemblerState :=
  if st.buf ≠ [] ∧ idleSeconds ≤ now - st.lastActivity then
    (some st.buf, ⟨[], st.lastActivity⟩)
  else (none, st)

/-- Repeated `feed` calls, one chunk at a time, collecting each call's
completed lines in order. -/
def feedMany : AssemblerState → ℚ → List (List Nat) → List (List Nat) × AssemblerState
  | st, _, [] => ([], st)
  | st, now, c :: cs =>
    let p := feed st c now
    let q := feedMany p.2 now cs
    (p.1 ++ q.1, q.2)

/-- The left-over buffer of the newline split never contains a newline
byte. -/
theorem splitNl_snd_no_nl (buf : List Nat) : 10 ∉ (splitNl buf).2 := by
  induction buf with
  | nil => simp [splitNl]
  | cons b rest ih =>
    by_cases hb : b = 10
    · simp only [splitNl, if_pos hb]
      exact ih
    · simp only [splitNl, if_neg hb]
      rcases hu : (splitNl rest).1 with _ | ⟨l, ls⟩
      · have hpair : splitNl rest = ([], (splitNl rest).2) := Prod.ext hu rfl
        rw [hpair, consHead_nil]
        intro hmem
        rcases List.mem_cons.mp hmem with h1 | h2
        · exact hb h1.symm
        · exact ih h2
      · have hpair : splitNl rest = (l :: ls, (splitNl rest).2) := Prod.ext hu rfl
        rw [hpair, consHead_cons]
        exact ih

/-- The buffer left behind by `feed`'s extraction loop never contains a
newline byte. -/
theorem feedLoop_snd_no_nl (buf : List Nat) : 10 ∉ (feedLoop buf).2 := by
  rw [feedLoop_eq_splitNl]
  exact splitNl_snd_no_nl buf

theorem feedMany_eq_feed_flatten (chunks : List (List Nat)) :
    ∀ (st : AssemblerState) (now : ℚ), 10 ∉ st.buf →
      (feedMany st now chunks).1 = (feed st chunks.flatten now).1 ∧
      (feedMany st now chunks).2.buf = (feed st chunks.flatten now).2.buf := by
  induction chunks with
  | nil =>
    intro st now hnb
    simp only [feedMany, feed, List.flatten_nil, List.append_nil]
    rw [feedLoop_eq_splitNl, splitNl_no_nl st.buf hnb]
    exact ⟨rfl, rfl⟩
  | cons c cs ih =>
    intro st now hnb
    have hnb2 : 10 ∉ (feed st c now).2.buf := feedLoop_snd_no_nl (st.buf ++ c)
    have hstep := feedLoop_append (st.buf ++ c) cs.flatten
    constructor
    · show (feed st c now).1 ++ (feedMany (feed st c now).2 now cs).1 = _
      rw [(ih (feed st c now).2 now hnb2).1]
      simp only [feed, List.flatten_cons]
      rw [← List.append_assoc, hstep]
    · show (feedMany (feed st c now).2 now cs).2.buf = _
      rw [(ih (feed st c now).2 now hnb2).2]
      simp only [feed, List.flatten_cons]
      rw [← List.append_assoc, hstep]

/-- Claim C2: feeding a byte sequence to `LineAssembler.feed` chunk by
chunk — under any decomposition into consecutive chunks — produces, in
concatenation order, exactly the complete lines produced by feeding the
whole sequence in one `feed` call on a fresh assembler. -/
theorem lineAssembler_chunk_boundary_independence
    (chunks : List (List Nat)) (t now : ℚ) :
    (feedMany (assemblerInit t) now chunks).1 =
      (feed (assemblerInit t) chunks.flatten now).1 :=
  (feedMany_eq_feed_flatten chunks (assemblerInit t) now (by simp [assemblerInit])).1

/-- Claim C8 counterexample: feeding `b"a\rb\n"` (bytes 97 13 98 10) to a
fresh `LineAssembler` emits the line `b"a\rb"`, which contains the
carriage-return byte 13 — refuting "the carriage-return byte never
appears in any emitted line". -/
theorem lineAssembler_cr_in_output :
    (feed (assemblerInit 0) [97, 13, 98, 10] 0).1 = [[97, 13, 98]] ∧
    13 ∈ [97, 13, 98] := by
  constructor
  · show (feedLoop ([] ++ [97, 13, 98, 10])).1 = _
    rw [feedLoop_eq_splitNl]
    decide
  · decide

/-- Claim C8 (amended): a bare LF terminates a line and exactly one
trailing CR directly before the LF is stripped, so CRLF also terminates a
line and the spec example `b"hi\r\nworld\r\n" -> ["hi", "world"]` holds;
a CR not directly preceding the LF is preserved in the emitted line. -/
theorem lineAssembler_line_termination :
    ((feed (assemblerInit 0)
        [104, 105, 13, 10, 119, 111, 114, 108, 100, 13, 10] 0).1
      = [[104, 105], [119, 111, 114, 108, 100]]) ∧
    (∀ (u : List Nat) (t now : ℚ), 10 ∉ u →
      (feed (assemblerInit t) (u ++ [10]) now).1 = [stripCR u]) := by
  constructor
  · show (feedLoop ([] ++ [104, 105, 13, 10, 119, 111, 114, 108, 100, 13, 10])).1 = _
    rw [feedLoop_eq_splitNl]
    decide
  · intro u t now hu
    show (feedLoop ([] ++ (u ++ [10]))).1 = _
    rw [List.nil_append, feedLoop_eq_splitNl]
    have h10 : u ++ [10] = u ++ 10 :: [] := rfl
    rw [h10, splitNl_before_nl u [] hu]
    simp [splitNl]

/-- Witness for `lineAssembler_line_termination`: the byte sequence
`b"a\r\n"` emits exactly the CR-stripped line `b"a"`. -/
theorem lineAssembler_line_termination_witness :
    (feed (assemblerInit 0) ([97, 13] ++ [10]) 0).1 = [stripCR [97, 13]] :=
  lineAssembler_line_termination.2 [97, 13] 0 0 (by decide)

/-- Claim C9: `flush_if_idle(threshold)` returns the buffered bytes as a
single undelimited line and clears the buffer if and only if the buffer
is non-empty and the time since the last feed activity is at least the
threshold; otherwise it returns nothing; and a second call immediately
after a successful flush returns nothing (the buffer is empty). -/
theorem flush_if_idle_spec (st : AssemblerState) (thr now : ℚ) :
    (((flushIfIdle st thr now).1 = some st.buf ∧ (flushIfIdle st thr now).2.buf = [])
        ↔ (st.buf ≠ [] ∧ thr ≤ now - st.lastActivity)) ∧
    ((flushIfIdle st thr now).1 = none
        ↔ ¬(st.buf ≠ [] ∧ thr ≤ now - st.lastActivity)) ∧
    (∀ (now2 : ℚ) (l : List Nat), (flushIfIdle st thr now).1 = some l →
        (flushIfIdle (flushIfIdle st thr now).2 thr now2).1 = none) := by
  by_cases hc : st.buf ≠ [] ∧ thr ≤ now - st.lastActivity
  · refine ⟨?_, ?_, ?_⟩
    · simp [flushIfIdle, if_pos hc, hc]
    · simp [flushIfIdle, if_pos hc, hc]
    · intro now2 l hsome
      simp [flushIfIdle, if_pos hc]
  · refine ⟨?_, ?_, ?_⟩
    · simp only [flushIfIdle, if_neg hc]
      constructor
      · intro h
        exact absurd h.1 (by simp)
      · intro h
        exact absurd h hc
    · simp [flushIfIdle, if_neg hc, hc]
    · intro now2 l hsome
      simp only [flushIfIdle, if_neg hc] at hsome
      exact absurd hsome (by simp)

/-- Witness for `flush_if_idle_spec`: a buffer holding byte 112 with last
activity at time 0, flushed with threshold 1 at time 2, flushes once; the
immediate second call returns nothing. -/
theorem flush_if_idle_spec_witness :
    (flushIfIdle (flushIfIdle ⟨[112], 0⟩ 1 2).2 1 2).1 = none :=
  (flush_if_idle_spec ⟨[112], 0⟩ 1 2).2.2 2 [112] (by
    simp only [flushIfIdle]
    norm_num)

/-! ## Broadcaster and line emission (logger_controller.py lines 48-190) -/

/-- An `asyncio.Queue[str]` as used for line subscribers: `maxsize`
(0 means unbounded, following asyncio) and the queued items. -/
structure SubQueue where
  maxsize : Nat
  items : List String
deriving DecidableEq

/-- `asyncio.Queue.put_nowait`: raises `QueueFull` (modelled as `none`)
when the queue is bounded (`maxsize > 0`) and already holds at least
`maxsize` items; otherwise appends the item. -/
def putNowait (q : SubQueue) (line : String) : Option SubQueue :=
  if 0 < q.maxsize ∧ q.maxsize ≤ q.items.length then none
  else some { q with items := q.items ++ [line] }

/-- The guarded enqueue in `_broadcast_line` (logger_controller.py lines
172-176): `try: q.put_nowait(line) except Exception: pass` — a failing
enqueue leaves the queue untouched and raises nothing. -/
def trySub (q : SubQueue) (line : String) : SubQueue :=
  match putNowait q line with
  | some q2 => q2
  | none => q

/-- The broadcaster-owned state of `NUSLoggerController`: the tail buffer
`self._tail` and the subscriber list `self._line_subscribers`. -/
structure BroadcasterState where
  tail : List String
  subs : List SubQueue
deriving DecidableEq

/-- `self._tail_max = 1000` (logger_controller.py line 57). -/
def tailMax : Nat := 1000

/-- Python `xs[-n:]` for positive `n`: the last `min n (length xs)`
elements. -/
def lastN (n : Nat) (xs : List String) : List String :=
  xs.drop (xs.length - n)

/-- `NUSLoggerController._broadcast_line` (logger_controller.py lines
166-176): an empty line returns immediately; otherwise the line is
appended to the tail buffer, the buffer is trimmed to its last
`_tail_max` entries when it exceeds `_tail_max`
(`self._tail = self._tail[-self._tail_max:]`), and the line is enqueued
non-blockingly to every subscriber, ignoring enqueue failures. -/
def broadcastLine (st : BroadcasterState) (line : String) : BroadcasterState :=
  if line = "" then st
  else
    let t1 := st.tail ++ [line]
    let t2 := if tailMax < t1.length then lastN tailMax t1 else t1
    { tail := t2, subs := st.subs.map (fun q => trySub q line) }

/-- `NUSLoggerController.get_tail` (logger_controller.py lines 127-128):
`return self._tail[-limit:]`.  Python slice semantics: for `limit = 0`
the slice `[-0:]` is `[0:]`, the whole list; for positive `limit` it is
the last `limit` elements. -/
def get_tail (tail : List String) (limit : Nat) : List String :=
  if limit = 0 then tail else tail.drop (tail.length - limit)

/-- `NUSLoggerController.subscribe` (logger_controller.py lines 116-119):
creates a fresh `asyncio.Queue()` — default `maxsize=0`, i.e. unbounded —
appends it to the subscriber list and returns it. -/
def subscribe (st : BroadcasterState) : SubQueue × BroadcasterState :=
  (⟨0, []⟩, { st with subs := st.subs ++ [⟨0, []⟩] })

/-- The emission-side state of the controller: broadcaster state plus the
log sink (`self._logfile_handle`, modelled as open/closed plus the lines
written so far; `write` failures are swallowed by the source's
`try/except`). -/
structure EmitterState where
  bc : BroadcasterState
  logOpen : Bool
  logLines : List String
deriving DecidableEq

/-- `NUSLoggerController._write_line` (logger_controller.py lines
183-189): broadcast the line, then append it to the log file when one is
open. -/
def writeLine (st : EmitterState) (line : String) : EmitterState :=
  { st with
    bc := broadcastLine st.bc line,
    logLines := if st.logOpen then st.logLines ++ [line] else st.logLines }

/-- Iterated `_write_line` over a sequence of completed lines. -/
def writeAll : EmitterState → List String → EmitterState
  | st, [] => st
  | st, l :: ls => writeAll (writeLine st l) ls

/-- Iterated `_broadcast_line` over a sequence of published lines. -/
def broadcastAll : BroadcasterState → List String → BroadcasterState
  | st, [] => st
  | st, l :: ls => broadcastAll (broadcastLine st l) ls

theorem lastN_of_le {n : Nat} {xs : List String} (h : xs.length ≤ n) :
    lastN n xs = xs := by
  have h0 : xs.length - n = 0 := by omega
  simp [lastN, h0]

theorem lastN_length_le (n : Nat) (xs : List String) :
    (lastN n xs).length ≤ n := by
  simp only [lastN, List.length_drop]
  omega

theorem lastN_append_lastN (n : Nat) (xs ys : List String) :
    lastN n (lastN n xs ++ ys) = lastN n (xs ++ ys) := by
  by_cases h : xs.length ≤ n
  · rw [lastN_of_le h]
  · have hT : (xs.take (xs.length - n)).length = xs.length - n := by
      simp only [List.length_take]
      omega
    have hlhs : lastN n (lastN n xs ++ ys)
        = (xs.drop (xs.length - n) ++ ys).drop ys.length := by
      simp only [lastN, List.length_append, List.length_drop]
      congr 1
      omega
    have hrhs : lastN n (xs ++ ys)
        = (xs.drop (xs.length - n) ++ ys).drop ys.length := by
      have hsplit : xs ++ ys
          = xs.take (xs.length - n) ++ (xs.drop (xs.length - n) ++ ys) := by
        rw [← List.append_assoc, List.take_append_drop]
      have hamount : (xs ++ ys).length - n
          = (xs.take (xs.length - n)).length + ys.length := by
        simp only [List.length_append, hT]
        omega
      rw [lastN, hamount, hsplit, List.drop_append]
    rw [hlhs, hrhs]

/-- The tail update of `_broadcast_line` always equals "keep the last
`tailMax` entries of tail-plus-new-line" (the explicit trim in the source
only fires above `tailMax`, but below the bound trimming is the
identity). -/
theorem broadcastLine_tail (st : BroadcasterState) (line : String)
    (h : line ≠ "") :
    (broadcastLine st line).tail = lastN tailMax (st.tail ++ [line]) := by
  simp only [broadcastLine, if_neg h]
  by_cases hlen : tailMax < (st.tail ++ [line]).length
  · rw [if_pos hlen]
  · rw [if_neg hlen]
    rw [lastN_of_le (by omega)]

theorem broadcastLine_subs (st : BroadcasterState) (line : String)
    (h : line ≠ "") :
    (broadcastLine st line).subs = st.subs.map (fun q => trySub q line) := by
  simp only [broadcastLine, if_neg h]

theorem broadcastLine_empty (st : BroadcasterState) :
    broadcastLine st "" = st := by
  simp [broadcastLine]

/-- Enqueue to an unbounded subscriber queue (asyncio `maxsize=0`) always
succeeds and appends. -/
theorem trySub_unbounded (items : List String) (line : String) :
    trySub ⟨0, items⟩ line = ⟨0, items ++ [line]⟩ := by
  simp [trySub, putNowait]

/-- Full characterization of repeated `_broadcast_line` on a broadcaster
with one unbounded subscriber: the tail holds the last `tailMax`
non-empty published lines, and the subscriber queue receives every
non-empty published line exactly once, in order. -/
theorem broadcastAll_single (lines : List String) :
    ∀ (tl items : List String), tl.length ≤ tailMax →
      broadcastAll ⟨tl, [⟨0, items⟩]⟩ lines
        = ⟨lastN tailMax (tl ++ lines.filter (fun l => l ≠ "")),
           [⟨0, items ++ lines.filter (fun l => l ≠ "")⟩]⟩ := by
  induction lines with
  | nil =>
    intro tl items hlen
    simp only [broadcastAll, List.filter_nil, List.append_nil]
    rw [lastN_of_le hlen]
  | cons l ls ih =>
    intro tl items hlen
    by_cases hl : l = ""
    · subst hl
      show broadcastAll (broadcastLine ⟨tl, [⟨0, items⟩]⟩ "") ls = _
      rw [broadcastLine_empty, ih tl items hlen]
      simp
    · show broadcastAll (broadcastLine ⟨tl, [⟨0, items⟩]⟩ l) ls = _
      have hbl : broadcastLine ⟨tl, [⟨0, items⟩]⟩ l
          = ⟨lastN tailMax (tl ++ [l]), [⟨0, items ++ [l]⟩]⟩ := by
        have ht := broadcastLine_tail ⟨tl, [⟨0, items⟩]⟩ l hl
        have hs := broadcastLine_subs ⟨tl, [⟨0, items⟩]⟩ l hl
        rcases hb : broadcastLine ⟨tl, [⟨0, items⟩]⟩ l with ⟨bt, bs⟩
        rw [hb] at ht hs
        simp only at ht hs
        rw [ht, hs]
        simp [trySub_unbounded]
      rw [hbl, ih _ _ (lastN_length_le tailMax (tl ++ [l]))]
      rw [lastN_append_lastN]
      have hfilter : (l :: ls).filter (fun x => x ≠ "") =
          l :: ls.filter (fun x => x ≠ "") := by
        simp [hl]
      rw [hfilter]
      simp

/-- `_write_line` iterated: the log sink receives every line in order
(when open), and the broadcaster sees exactly the same line sequence. -/
theorem writeAll_decompose (lines : List String) :
    ∀ (st : EmitterState),
      writeAll st lines
        = ⟨broadcastAll st.bc lines, st.logOpen,
           if st.logOpen then st.logLines ++ lines else st.logLines⟩ := by
  induction lines with
  | nil =>
    intro st
    rcases st with ⟨bc, lo, ll⟩
    rcases lo <;> simp [writeAll, broadcastAll]
  | cons l ls ih =>
    intro st
    show writeAll (writeLine st l) ls = _
    rw [ih (writeLine st l)]
    rcases st with ⟨bc, lo, ll⟩
    rcases lo <;> simp [writeLine, broadcastAll]

/-- Claim C4 counterexample: with a single published line, `get_tail 0`
returns the whole tail — one line, not "at most 0 lines" — because the
Python slice `self._tail[-0:]` is the full list. -/
theorem get_tail_zero_counterexample :
    get_tail ["x"] 0 = ["x"] ∧ ¬ (get_tail ["x"] 0).length ≤ 0 := by
  constructor
  · rfl
  · decide

/-- Claim C4 (amended): the tail buffer never exceeds `tailMax = 1000`
lines under any publish sequence; when full, publishing a non-empty line
evicts the oldest entry (FIFO); and for every limit ≥ 1 (the claim fails
at limit 0), `get_tail` returns at most `limit` lines and they are a
suffix — the most recent lines in publication order. -/
theorem tail_buffer_bounds :
    (∀ (st : BroadcasterState) (lines : List String),
        st.tail.length ≤ tailMax →
        (broadcastAll st lines).tail.length ≤ tailMax) ∧
    (∀ (st : BroadcasterState) (line : String), line ≠ "" →
        st.tail.length = tailMax →
        (broadcastLine st line).tail = st.tail.drop 1 ++ [line]) ∧
    (∀ (t : List String) (limit : Nat), 1 ≤ limit →
        (get_tail t limit).length ≤ limit ∧
        t.take (t.length - limit) ++ get_tail t limit = t) := by
  refine ⟨?_, ?_, ?_⟩
  · intro st lines
    induction lines generalizing st with
    | nil => intro h; exact h
    | cons l ls ih =>
      intro h
      show (broadcastAll (broadcastLine st l) ls).tail.length ≤ tailMax
      apply ih
      by_cases hl : l = ""
      · subst hl; rw [broadcastLine_empty]; exact h
      · rw [broadcastLine_tail st l hl]
        exact lastN_length_le tailMax (st.tail ++ [l])
  · intro st line hne hfull
    rw [broadcastLine_tail st line hne]
    have hlen : (st.tail ++ [line]).length - tailMax = 1 := by
      simp only [List.length_append, List.length_cons, List.length_nil, hfull]
      omega
    rw [lastN, hlen, List.drop_append_of_le_length (by rw [hfull]; decide)]
  · intro t limit hpos
    have hne : limit ≠ 0 := by omega
    constructor
    · simp only [get_tail, if_neg hne, List.length_drop]
      omega
    · simp only [get_tail, if_neg hne]
      exact List.take_append_drop (t.length - limit) t

/-- Witness for `tail_buffer_bounds` at concrete inputs: a short publish
run stays within the bound; a full tail evicts its oldest line; and
`get_tail 2` of a three-line tail is its two most recent lines. -/
theorem tail_buffer_bounds_witness :
    (broadcastAll ⟨["a"], []⟩ ["b", "c"]).tail.length ≤ tailMax ∧
    (broadcastLine ⟨List.replicate tailMax "a", []⟩ "b").tail
      = (List.replicate tailMax "a").drop 1 ++ ["b"] ∧
    ((get_tail ["a", "b", "c"] 2).length ≤ 2 ∧
      ["a", "b", "c"].take (["a", "b", "c"].length - 2) ++ get_tail ["a", "b", "c"] 2
        = ["a", "b", "c"]) :=
  ⟨tail_buffer_bounds.1 ⟨["a"], []⟩ ["b", "c"] (by simp [tailMax]),
   tail_buffer_bounds.2.1 ⟨List.replicate tailMax "a", []⟩ "b"
     (by decide) (by simp),
   tail_buffer_bounds.2.2 ["a", "b", "c"] 2 (by omega)⟩

/-- Claim C5 counterexample: an empty completed line fed to `_write_line`
is written to the log sink but never reaches the broadcaster — the tail
buffer and the subscriber queue stay empty — refuting "every completed
line (including an empty line) is emitted to the broadcaster". -/
theorem empty_line_skipped_by_broadcaster :
    (writeLine ⟨⟨[], [⟨0, []⟩]⟩, true, []⟩ "").bc.tail = [] ∧
    (writeLine ⟨⟨[], [⟨0, []⟩]⟩, true, []⟩ "").bc.subs = [⟨0, []⟩] ∧
    (writeLine ⟨⟨[], [⟨0, []⟩]⟩, true, []⟩ "").logLines = [""] := by
  refine ⟨?_, ?_, rfl⟩ <;> simp [writeLine, broadcastLine_empty]

/-- Claim C5 (amended): over any sequence of completed lines, the log
sink receives every line exactly once in arrival order; each (unbounded)
subscriber queue receives exactly the non-empty lines, once each in
arrival order; the tail holds the most recent `tailMax` of the non-empty
lines; empty lines are skipped by the broadcaster (tail and subscriber
queues) though still written to the sink. -/
theorem line_emission_exactly_once (lines : List String) :
    (writeAll ⟨⟨[], [⟨0, []⟩]⟩, true, []⟩ lines).logLines = lines ∧
    (writeAll ⟨⟨[], [⟨0, []⟩]⟩, true, []⟩ lines).bc.subs
      = [⟨0, lines.filter (fun l => l ≠ "")⟩] ∧
    (writeAll ⟨⟨[], [⟨0, []⟩]⟩, true, []⟩ lines).bc.tail
      = lastN tailMax (lines.filter (fun l => l ≠ "")) := by
  have hd := writeAll_decompose lines ⟨⟨[], [⟨0, []⟩]⟩, true, []⟩
  have hb := broadcastAll_single lines [] [] (by simp [tailMax])
  rw [hd]
  refine ⟨by simp, ?_, ?_⟩
  · show (broadcastAll ⟨[], [⟨0, []⟩]⟩ lines).subs = _
    rw [hb]
    simp
  · show (broadcastAll ⟨[], [⟨0, []⟩]⟩ lines).tail = _
    rw [hb]
    simp

/-- Claim C7 counterexample: the queue returned by `subscribe()` is
`asyncio.Queue()` with default `maxsize = 0` — unbounded, not bounded:
`put_nowait` still succeeds on a queue already holding 2000 items. -/
theorem subscribe_unbounded_counterexample :
    (subscribe ⟨[], []⟩).1.maxsize = 0 ∧
    putNowait ⟨0, List.replicate 2000 "line"⟩ "line"
      = some ⟨0, List.replicate 2000 "line" ++ ["line"]⟩ := by
  constructor
  · rfl
  · have h : ∀ (items : List String) (l : String),
        putNowait ⟨0, items⟩ l = some ⟨0, items ++ [l]⟩ := by
      intro items l
      simp [putNowait]
    exact h (List.replicate 2000 "line") "line"

/-- Claim C7 (amended): `subscribe()` returns a fresh unbounded queue
(asyncio `maxsize = 0`) registered with the broadcaster; publish uses a
non-blocking `put_nowait` guarded by `try/except`, so enqueueing to an
unbounded queue always appends, while a full bounded queue is skipped
without error — the publisher never blocks and never raises. -/
theorem subscribe_publish_policy :
    (∀ (st : BroadcasterState),
        (subscribe st).1 = ⟨0, []⟩ ∧
        (subscribe st).2.subs = st.subs ++ [⟨0, []⟩]) ∧
    (∀ (q : SubQueue) (line : String), q.maxsize = 0 →
        trySub q line = ⟨q.maxsize, q.items ++ [line]⟩) ∧
    (∀ (q : SubQueue) (line : String),
        0 < q.maxsize → q.maxsize ≤ q.items.length →
        trySub q line = q) := by
  refine ⟨fun st => ⟨rfl, rfl⟩, ?_, ?_⟩
  · intro q line h0
    rcases q with ⟨m, items⟩
    simp only at h0
    subst h0
    exact trySub_unbounded items line
  · intro q line hpos hfull
    simp [trySub, putNowait, hpos, hfull]

/-- Witness for `subscribe_publish_policy`: an unbounded queue accepts a
line; a bounded queue of capacity 1 already holding one item is skipped
unchanged. -/
theorem subscribe_publish_policy_witness :
    trySub ⟨0, ["a"]⟩ "b" = ⟨0, ["a"] ++ ["b"]⟩ ∧
    trySub ⟨1, ["a"]⟩ "b" = ⟨1, ["a"]⟩ :=
  ⟨subscribe_publish_policy.2.1 ⟨0, ["a"]⟩ "b" rfl,
   subscribe_publish_policy.2.2 ⟨1, ["a"]⟩ "b" (by decide) (by decide)⟩

/-! ## Connect validation and scan name filtering
(logger_controller.py lines 91-103, ble_nus.py lines 117-134) -/

/-- The settings fields relevant to `connect`
(`LoggerSettings.name`, `LoggerSettings.filter_addr`). -/
structure CtrlSettings where
  name : String
  filterAddr : Option String
deriving DecidableEq

/-- The argument-handling and validation prefix of
`NUSLoggerController.connect` (logger_controller.py lines 91-97): apply
the optional `name`/`filter_addr` overrides to the settings, then raise
`ValueError("Device name substring required")` when the effective name is
empty; otherwise proceed (the reconnect loop task is started). -/
def connectStart (settings : CtrlSettings) (name : Option String)
    (filterAddr : Option String) : Except String CtrlSettings :=
  let s1 := match name with
    | some n => { settings with name := n }
    | none => settings
  let s2 := match filterAddr with
    | some a => { s1 with filterAddr := some a }
    | none => s1
  if s2.name = "" then Except.error "Device name substring required"
  else Except.ok s2

/-- Python's sequence-prefix test, first step of the substring operator:
does `hay` start with `needle`? -/
def seqStartsWith : List Char → List Char → Bool
  | [], _ => true
  | _ :: _, [] => false
  | a :: as, b :: bs => (a == b) && seqStartsWith as bs

/-- Python's substring operator `needle in hay` on character sequences:
some suffix of `hay` starts with `needle`. -/
def seqContains (needle : List Char) : List Char → Bool
  | [] => needle.isEmpty
  | b :: rest => seqStartsWith needle (b :: rest) || seqContains needle rest

/-- The per-device filter of `NUSClient.scan` (ble_nus.py lines 118-134):
`dname` is the stripped advertised device name; with a non-empty name
filter an unnamed device cannot match and the lowered filter must occur
in the lowered device name (`lname not in dname.lower(): continue`); with
an empty name filter every device is considered; independently, when
`require_adv_nus` is set the advertisement must list the NUS service
UUID (modelled as `advHasNus`). -/
def deviceMatches (name dname : List Char) (advHasNus requireAdvNus : Bool) :
    Bool :=
  (if name ≠ [] then
    if dname = [] then false
    else seqContains (name.map Char.toLower) (dname.map Char.toLower)
  else true)
  && (if requireAdvNus then advHasNus else true)

/-- Claim C6 counterexample: `NUSLoggerController.connect` with an empty
target name raises `ValueError("Device name substring required")` instead
of succeeding as a wildcard. -/
theorem connect_empty_name_raises :
    connectStart ⟨"", none⟩ (some "") none
      = Except.error "Device name substring required" := rfl

/-- Claim C6 (amended): a non-empty name substring IS a precondition of
`NUSLoggerController.connect` — an empty effective name (whether passed
explicitly or left in the settings) raises `ValueError`; the empty-name
wildcard exists only in `NUSClient.scan`, whose device filter accepts
every advertising device when the name filter is empty (subject only to
the NUS service-presence filter). -/
theorem connect_requires_name :
    (∀ (s : CtrlSettings) (fa : Option String), s.name = "" →
        connectStart s none fa = Except.error "Device name substring required" ∧
        connectStart s (some "") fa
          = Except.error "Device name substring required") ∧
    (∀ (dname : List Char) (advHasNus req : Bool),
        deviceMatches [] dname advHasNus req
          = (if req then advHasNus else true)) := by
  constructor
  · intro s fa hname
    rcases fa with _ | a
    · constructor <;> simp [connectStart, hname]
    · constructor <;> simp [connectStart, hname]
  · intro dname advHasNus req
    simp [deviceMatches]

/-- Witness for `connect_requires_name`: empty-name connect on default
settings errors; an unnamed device passes the empty-name scan filter when
it advertises the NUS UUID. -/
theorem connect_requires_name_witness :
    connectStart ⟨"", none⟩ none none
      = Except.error "Device name substring required" ∧
    deviceMatches [] [] true true = (if true then true else true) :=
  ⟨((connect_requires_name.1 ⟨"", none⟩ none) rfl).1,
   connect_requires_name.2 [] true true⟩

/-! ## Disconnect and status (logger_controller.py lines 105-141,
ble_nus.py lines 274-307) -/

/-- The observable state of the wrapped `BleakClient`:
`self._client and self._client.is_connected`. -/
structure ClientState where
  isConnected : Bool
deriving DecidableEq

/-- `NUSClient.disconnect` (ble_nus.py lines 274-302): stops notifications
and disconnects when connected, swallowing teardown errors; idempotent —
in every case the client ends up not connected and nothing is raised. -/
def clientDisconnect (_ : ClientState) : ClientState := ⟨false⟩

/-- A discovered-device record as stored in `self._device`. -/
structure DeviceInfo where
  name : String
  address : String
  rssi : Int
deriving DecidableEq

/-- Controller runtime state touched by `disconnect`/`status`
(logger_controller.py lines 49-64): the client, whether the `_run_loop`
task is still running, the stop event, `_connecting`, `_device` and
`_retries`. -/
structure CtrlState where
  client : ClientState
  loopRunning : Bool
  stopSet : Bool
  connecting : Bool
  device : Option DeviceInfo
  retries : Nat
deriving DecidableEq

/-- `NUSLoggerController.__init__` (logger_controller.py lines 49-64):
no client connection, no loop task, stop event clear, not connecting, no
device, retry counter 0. -/
def ctrlInit : CtrlState :=
  { client := ⟨false⟩, loopRunning := false, stopSet := false,
    connecting := false, device := none, retries := 0 }

/-- The `finally` block of `NUSLoggerController._run_loop`
(logger_controller.py lines 215-224), which runs when the loop task is
awaited: disconnect the client, clear `_connecting` and `_device`, clear
the stop event, cancel and await the idle-flush task. -/
def runLoopFinally (st : CtrlState) : CtrlState :=
  { st with client := clientDisconnect st.client, connecting := false,
            device := none, stopSet := false, loopRunning := false }

/-- `NUSLoggerController.disconnect` (logger_controller.py lines
105-114): set the stop event; await the loop task if any (running its
`finally` teardown, exceptions swallowed); disconnect the client; clear
`_connecting` and `_device`.  Total — every exception along the way is
caught in the source. -/
def ctrlDisconnect (st : CtrlState) : CtrlState :=
  let st1 := { st with stopSet := true }
  let st2 := if st1.loopRunning then runLoopFinally st1 else st1
  let st3 := { st2 with client := clientDisconnect st2.client }
  { st3 with connecting := false, device := none }

/-- The status record returned by `NUSLoggerController.status`. -/
structure StatusView where
  connected : Bool
  connecting : Bool
  device : Option DeviceInfo
  retries : Nat
deriving DecidableEq

/-- `NUSLoggerController.status` (logger_controller.py lines 130-141):
`connected` mirrors the client, `connecting` is `_connecting and not
connected`, `device` is the stored device record, `retries` the counter. -/
def ctrlStatus (st : CtrlState) : StatusView :=
  { connected := st.client.isConnected,
    connecting := st.connecting && !st.client.isConnected,
    device := st.device,
    retries := st.retries }

/-- Claim C10: calling `disconnect()` from any controller state — never
connected, mid-session, or already torn down — completes (the modelled
operation is total, as every exception site in the source path is
guarded) and afterwards `status()` reports `connected = False`,
`connecting = False` and `device = None`. -/
theorem disconnect_always_resets (st : CtrlState) :
    (ctrlStatus (ctrlDisconnect st)).connected = false ∧
    (ctrlStatus (ctrlDisconnect st)).connecting = false ∧
    (ctrlStatus (ctrlDisconnect st)).device = none := by
  rcases st with ⟨⟨c⟩, lr, ss, cn, dv, rt⟩
  rcases lr <;> simp [ctrlStatus, ctrlDisconnect, runLoopFinally, clientDisconnect]

/-! ## Wait loops and the reconnection loop
(ble_nus.py lines 104-115 and 262-268, nus_logger.py lines 387-421) -/

/-- The scan wait loop of `NUSClient.scan` (ble_nus.py lines 104-115),
in clock ticks of 0.1 s: `while loop.time() < deadline: if
early_event.is_set(): break; await asyncio.sleep(0.1)`.  `remaining` is
the number of ticks left until the deadline, `t` the current tick; the
result is the tick at which the loop exits.  The loop consults only the
deadline and the early-address event — a controller stop request is not
among its inputs, faithfully to the source, where no stop signal is in
scope. -/
def scanLoop (early : Nat → Bool) : Nat → Nat → Nat
  | 0, t => t
  | r + 1, t => if early t then t else scanLoop early r (t + 1)

/-- Exit tick of the scan wait loop started at tick 0 with
`deadlineTicks` ticks of budget. -/
def scanWaitEnd (deadlineTicks : Nat) (early : Nat → Bool) : Nat :=
  scanLoop early deadlineTicks 0

/-- The wait loop of `NUSClient.run_until_disconnect` (ble_nus.py lines
262-268), counting 0.25 s sleeps: `while is_connected: if stop_event and
stop_event.is_set(): await disconnect; break; await sleep(0.25)`.
`connected`/`stopSet` give each iteration's observations, `fuel` bounds
the iterations, and the result is how many sleeps ran before exit. -/
def rudLoop (connected stopSet : Nat → Bool) : Nat → Nat → Nat
  | 0, sleeps => sleeps
  | f + 1, sleeps =>
    if connected sleeps then
      if stopSet sleeps then sleeps
      else rudLoop connected stopSet f (sleeps + 1)
    else sleeps

theorem scanLoop_never_early (r : Nat) :
    ∀ (t : Nat), scanLoop (fun _ => false) r t = t + r := by
  induction r with
  | zero => intro t; rfl
  | succ n ih =>
    intro t
    show scanLoop (fun _ => false) (n + 1) t = t + (n + 1)
    simp only [scanLoop, Bool.false_eq_true, if_false, ih (t + 1)]
    omega

/-- Claim C3 counterexample: during a 5-second scan (50 ticks of 0.1 s)
with no early address match, the scan wait loop runs to its full
deadline — tick 50 — whatever else happens in the program: a stop
requested at tick 0 is not an input of the loop, so the controller is
still inside the scan after 0.9 s (9 ticks), refuting sub-second
transition to the stopped state. -/
theorem stop_during_scan_not_prompt :
    scanWaitEnd 50 (fun _ => false) = 50 ∧
    ¬ scanWaitEnd 50 (fun _ => false) ≤ 9 := by
  constructor
  · decide
  · decide

/-- Claim C3 (amended): a stop requested while the controller waits in
`run_until_disconnect` is observed before the next 0.25 s sleep — the
loop exits with zero further sleeps, sub-second.  But a stop requested
during a scan does not interrupt it: the scan wait loop consults only
its deadline and the early-address event, so without an early match it
always runs the full scan window; the stop is observed only between
reconnect attempts (after the scan and the fixed 1.0 s sleep finish). -/
theorem stop_responsiveness :
    (∀ (connected : Nat → Bool) (fuel : Nat),
        rudLoop connected (fun _ => true) fuel 0 = 0) ∧
    (∀ (deadlineTicks : Nat) (early : Nat → Bool),
        (∀ t, early t = false) →
        scanWaitEnd deadlineTicks early = deadlineTicks) := by
  constructor
  · intro connected fuel
    rcases fuel with _ | f
    · rfl
    · show (if connected 0 then if True = True then 0
            else rudLoop connected (fun _ => true) f (0 + 1) else 0) = 0
      rcases connected 0 <;> simp
  · intro d early hearly
    have he : early = fun _ => false := funext hearly
    rw [scanWaitEnd, he, scanLoop_never_early d 0]
    omega

/-- Witness for `stop_responsiveness`: with the stop signal set, a
connected session's wait loop exits with zero sleeps; a 3-tick scan with
no early match exits exactly at its deadline. -/
theorem stop_responsiveness_witness :
    rudLoop (fun _ => true) (fun _ => true) 5 0 = 0 ∧
    scanWaitEnd 3 (fun _ => false) = 3 :=
  ⟨stop_responsiveness.1 (fun _ => true) 5,
   stop_responsiveness.2 3 (fun _ => false) (fun _ => rfl)⟩

/-- The reconnection scan loop of `run_logger` (nus_logger.py lines
393-416) with the stop event never set, driven by how many more
`scan_and_connect` attempts will fail before one succeeds: each failure
(`except BleakError`) is followed by `await asyncio.sleep(1.0)` — a
constant 1.0-second wait — and the loop retries; a success breaks out of
the loop reconnected.  Returns the list of waits (in seconds) performed
before success, and `true` for the reconnected outcome. -/
def reconnectLoop : Nat → List ℚ × Bool
  | 0 => ([], true)
  | failuresLeft + 1 =>
    let p := reconnectLoop failuresLeft
    (1 :: p.1, p.2)

/-- Claim C1 (code behavior at the failing input): with a transport whose
connect fails K = 3 times and then succeeds, the reconnection loop
performs exactly 3 retry cycles and ends reconnected, but the three
inter-attempt waits are the constant sequence 1.0 s, 1.0 s, 1.0 s — not
strictly increasing, not doubling, not jittered, with no cap parameter
anywhere in the loop; the controller's `_retries` counter is initialized
to 0 and never incremented. -/
theorem reconnect_constant_waits :
    reconnectLoop 3 = ([1, 1, 1], true) ∧
    ¬ List.Chain' (fun a b => a < b) (reconnectLoop 3).1 ∧
    ctrlInit.retries = 0 := by
  refine ⟨rfl, ?_, rfl⟩
  intro h
  rw [show (reconnectLoop 3).1 = [1, 1, 1] from rfl, List.chain'_cons] at h
  exact absurd h.1 (by norm_num)

end NusLogger
